import Mathlib

/-!
Verification of the peer overlay protocol engine of the decentralised-chat
repository.  The definitions below are shallow embeddings of the Python
sources: `src/network.py` (the `NetworkManager` accept/handshake/dispatch
paths), `chat/network.py` (the older variant of the same manager),
`chat/utils.py` (`receive_all`, `save_file`) and `file_utils.py`.
Bytes are modelled as `Fin 256`, Python `dict`s as association lists,
sockets and file handles by their identifying keys, and side effects
(socket closes, writes, GUI callbacks) as explicit effect lists.
-/

set_option maxHeartbeats 1000000

abbrev Byte := Fin 256

/-! ### Framing codec

`send_message` (src/network.py lines 434-436) packs
`msg_type.value.encode() + len(data).to_bytes(4, 'big') + data`;
the read side (`handle_messages` lines 208-218) reads an 8-byte header,
parses the 4-byte ASCII tag with `MessageType(...)`, the 4-byte big-endian
length with `int.from_bytes`, and then exactly `length` payload bytes. -/

/-- The `MessageType` enum of src/network.py (lines 12-22). -/
inductive MessageType
  | TEXT
  | FILE_META
  | FILE_DATA
  | FILE_ACCEPT
  | FILE_DECLINE
  | NICK
  | PEER_LIST
  | HEARTBEAT
  | CONNECTION_ID
  | CLEAR_HISTORY
deriving DecidableEq

/-- ASCII bytes of each enum value (`'TEXT'`, `'FMTA'`, ...). -/
def tagBytes : MessageType → List Byte
  | .TEXT => [84, 69, 88, 84]
  | .FILE_META => [70, 77, 84, 65]
  | .FILE_DATA => [70, 68, 65, 84]
  | .FILE_ACCEPT => [70, 65, 67, 67]
  | .FILE_DECLINE => [70, 68, 69, 67]
  | .NICK => [78, 73, 67, 75]
  | .PEER_LIST => [80, 69, 82, 83]
  | .HEARTBEAT => [66, 69, 65, 84]
  | .CONNECTION_ID => [67, 79, 78, 78]
  | .CLEAR_HISTORY => [67, 76, 82, 72]

/-- `MessageType(header[:4].decode())`: enum lookup by value; `none` models
the `ValueError` raised on an unrecognised tag. -/
def fromTag (bs : List Byte) : Option MessageType :=
  if bs = tagBytes .TEXT then some .TEXT
  else if bs = tagBytes .FILE_META then some .FILE_META
  else if bs = tagBytes .FILE_DATA then some .FILE_DATA
  else if bs = tagBytes .FILE_ACCEPT then some .FILE_ACCEPT
  else if bs = tagBytes .FILE_DECLINE then some .FILE_DECLINE
  else if bs = tagBytes .NICK then some .NICK
  else if bs = tagBytes .PEER_LIST then some .PEER_LIST
  else if bs = tagBytes .HEARTBEAT then some .HEARTBEAT
  else if bs = tagBytes .CONNECTION_ID then some .CONNECTION_ID
  else if bs = tagBytes .CLEAR_HISTORY then some .CLEAR_HISTORY
  else none

/-- `len(data).to_bytes(4, 'big')` for values below `2^32`. -/
def toBytesBE (n : Nat) : List Byte :=
  [⟨n / 16777216 % 256, Nat.mod_lt _ (by decide)⟩,
   ⟨n / 65536 % 256, Nat.mod_lt _ (by decide)⟩,
   ⟨n / 256 % 256, Nat.mod_lt _ (by decide)⟩,
   ⟨n % 256, Nat.mod_lt _ (by decide)⟩]

/-- `int.from_bytes(bs, 'big')` on a 4-byte slice. -/
def fromBytesBE : List Byte → Nat
  | [a, b, c, d] => ((a.val * 256 + b.val) * 256 + c.val) * 256 + d.val
  | _ => 0

/-- `send_message` framing (src/network.py line 436).  `to_bytes(4, 'big')`
raises `OverflowError` for a payload of `2^32` bytes or more, hence the
`Option`. -/
def encodeFrame (mt : MessageType) (payload : List Byte) : Option (List Byte) :=
  if payload.length < 4294967296 then
    some (tagBytes mt ++ toBytesBE payload.length ++ payload)
  else none

/-- The read side of one frame (src/network.py lines 208-218) applied to a
complete byte string: 8 header bytes, tag lookup, big-endian length, and a
payload of exactly that many bytes. -/
def decodeFrame : List Byte → Option (MessageType × List Byte)
  | t0 :: t1 :: t2 :: t3 :: l0 :: l1 :: l2 :: l3 :: rest =>
    match fromTag [t0, t1, t2, t3] with
    | some mt =>
      if rest.length = fromBytesBE [l0, l1, l2, l3] then some (mt, rest) else none
    | none => none
  | _ => none

theorem fromBytesBE_toBytesBE (n : Nat) (h : n < 4294967296) :
    fromBytesBE (toBytesBE n) = n := by
  simp only [toBytesBE, fromBytesBE]
  omega

theorem toBytesBE_fromBytesBE (a b c d : Byte) :
    toBytesBE (fromBytesBE [a, b, c, d]) = [a, b, c, d] := by
  have ha := a.isLt; have hb := b.isLt; have hc := c.isLt; have hd := d.isLt
  simp only [toBytesBE, fromBytesBE, List.cons.injEq, and_true]
  refine ⟨Fin.ext ?_, Fin.ext ?_, Fin.ext ?_, Fin.ext ?_⟩ <;> simp <;> omega

theorem fromBytesBE_lt (a b c d : Byte) : fromBytesBE [a, b, c, d] < 4294967296 := by
  have ha := a.isLt; have hb := b.isLt; have hc := c.isLt; have hd := d.isLt
  simp only [fromBytesBE]
  omega

theorem fromTag_tagBytes (mt : MessageType) : fromTag (tagBytes mt) = some mt := by
  cases mt <;> decide

theorem fromTag_eq_some {bs : List Byte} {mt : MessageType}
    (h : fromTag bs = some mt) : bs = tagBytes mt := by
  unfold fromTag at h
  split_ifs at h <;> simp_all

theorem tagBytes_shape (mt : MessageType) :
    ∃ a b c d : Byte, tagBytes mt = [a, b, c, d] := by
  cases mt <;> exact ⟨_, _, _, _, rfl⟩

/-- C1.  Frame codec round-trip: encoding a tagged payload and decoding the
result yields the same pair, and decoding any valid frame byte string and
re-encoding yields the identical bytes. -/
theorem frame_codec_roundtrip (mt : MessageType) (payload bs : List Byte) :
    (encodeFrame mt payload = some bs → decodeFrame bs = some (mt, payload)) ∧
    (decodeFrame bs = some (mt, payload) → encodeFrame mt payload = some bs) := by
  constructor
  · intro h
    unfold encodeFrame at h
    split_ifs at h with hlen
    obtain ⟨a, b, c, d, htag⟩ := tagBytes_shape mt
    obtain ⟨x0, x1, x2, x3, hx⟩ : ∃ x0 x1 x2 x3,
        toBytesBE payload.length = [x0, x1, x2, x3] := ⟨_, _, _, _, rfl⟩
    injection h with h
    subst h
    rw [htag, hx]
    show decodeFrame (a :: b :: c :: d :: x0 :: x1 :: x2 :: x3 :: payload) = _
    simp only [decodeFrame]
    rw [← htag, fromTag_tagBytes]
    have hlen2 : fromBytesBE [x0, x1, x2, x3] = payload.length := by
      rw [← hx]; exact fromBytesBE_toBytesBE _ hlen
    simp [hlen2]
  · intro h
    rcases bs with _ | ⟨t0, _ | ⟨t1, _ | ⟨t2, _ | ⟨t3, _ | ⟨l0, _ |
      ⟨l1, _ | ⟨l2, _ | ⟨l3, rest⟩⟩⟩⟩⟩⟩⟩⟩ <;> (try simp only [decodeFrame] at h)
    all_goals try exact Option.noConfusion h
    cases htag : fromTag [t0, t1, t2, t3] with
    | none => simp only [htag] at h; exact Option.noConfusion h
    | some mt' =>
      simp only [htag] at h
      split_ifs at h with hl
      simp only [Option.some.injEq, Prod.mk.injEq] at h
      obtain ⟨rfl, rfl⟩ := h
      have hbs := fromTag_eq_some htag
      unfold encodeFrame
      rw [if_pos (hl ▸ fromBytesBE_lt l0 l1 l2 l3), ← hbs, hl,
        toBytesBE_fromBytesBE]
      rfl

/-- Witness for C1 at a concrete frame (`TEXT` tag, payload `"hi"`). -/
theorem frame_codec_roundtrip_witness :
    decodeFrame [84, 69, 88, 84, 0, 0, 0, 2, 104, 105] = some (.TEXT, [104, 105]) ∧
    encodeFrame .TEXT [104, 105] = some [84, 69, 88, 84, 0, 0, 0, 2, 104, 105] :=
  ⟨(frame_codec_roundtrip .TEXT [104, 105]
      [84, 69, 88, 84, 0, 0, 0, 2, 104, 105]).1 (by decide),
   (frame_codec_roundtrip .TEXT [104, 105]
      [84, 69, 88, 84, 0, 0, 0, 2, 104, 105]).2 (by decide)⟩

/-! ### Python dicts as association lists

`self.peers`, `self.connection_map`, `self.peer_nicks` and
`self.current_files` are Python dicts; we model them as association lists
with lookup, overwriting insert (`d[k] = v`) and pop (`d.pop(k)`). -/

def dlookup [DecidableEq α] (k : α) (d : List (α × β)) : Option β :=
  (d.find? (fun p => decide (p.1 = k))).map (·.2)

def dinsert [DecidableEq α] (k : α) (v : β) (d : List (α × β)) : List (α × β) :=
  (k, v) :: d.filter (fun p => decide (p.1 ≠ k))

def dpop [DecidableEq α] (k : α) (d : List (α × β)) : List (α × β) :=
  d.filter (fun p => decide (p.1 ≠ k))

theorem dlookup_cons [DecidableEq α] (p : α × β) (d : List (α × β)) (k : α) :
    dlookup k (p :: d) = if p.1 = k then some p.2 else dlookup k d := by
  simp only [dlookup, List.find?_cons]
  by_cases hp : p.1 = k <;> simp [hp]

theorem dlookup_filter_ne [DecidableEq α] (k k' : α) (d : List (α × β)) (h : k ≠ k') :
    dlookup k (d.filter (fun p => decide (p.1 ≠ k'))) = dlookup k d := by
  induction d with
  | nil => rfl
  | cons p d ih =>
    rw [List.filter_cons, dlookup_cons]
    by_cases hp' : p.1 = k'
    · have hpk : ¬ p.1 = k := by rw [hp']; intro hh; exact h hh.symm
      rw [if_neg (by simp [hp'] : ¬ ((fun p => decide (p.1 ≠ k')) p = true))]
      rw [if_neg hpk]
      exact ih
    · rw [if_pos (by simp [hp'] : (fun p => decide (p.1 ≠ k')) p = true)]
      rw [dlookup_cons]
      by_cases hpk : p.1 = k
      · rw [if_pos hpk, if_pos hpk]
      · rw [if_neg hpk, if_neg hpk]; exact ih

theorem dlookup_dinsert [DecidableEq α] (k k' : α) (v : β) (d : List (α × β)) :
    dlookup k (dinsert k' v d) = if k = k' then some v else dlookup k d := by
  by_cases h : k = k'
  · subst h; simp [dinsert, dlookup_cons]
  · rw [if_neg h]
    unfold dinsert
    rw [dlookup_cons, if_neg (fun hh : k' = k => h hh.symm)]
    exact dlookup_filter_ne _ _ _ h

theorem dlookup_dpop [DecidableEq α] (k k' : α) (d : List (α × β)) :
    dlookup k (dpop k' d) = if k = k' then none else dlookup k d := by
  by_cases h : k = k'
  · subst h
    rw [if_pos rfl]
    unfold dpop
    induction d with
    | nil => rfl
    | cons p d ih =>
      rw [List.filter_cons]
      by_cases hp : p.1 = k
      · rw [if_neg (by simp [hp] : ¬ ((fun p => decide (p.1 ≠ k)) p = true))]
        exact ih
      · rw [if_pos (by simp [hp] : (fun p => decide (p.1 ≠ k)) p = true)]
        rw [dlookup_cons, if_neg hp]
        exact ih
  · rw [if_neg h]; exact dlookup_filter_ne _ _ _ h

theorem dlookup_mem_snd [DecidableEq α] {k : α} {v : β} {d : List (α × β)}
    (h : dlookup k d = some v) : v ∈ d.map Prod.snd := by
  induction d with
  | nil => exact absurd h (by simp [dlookup])
  | cons p d ih =>
    rw [dlookup_cons] at h
    by_cases hp : p.1 = k
    · rw [if_pos hp] at h
      injection h with h
      exact h ▸ List.mem_cons_self _ _
    · rw [if_neg hp] at h
      exact List.mem_cons_of_mem _ (ih h)

/-! ### NetworkManager state

Shallow embedding of the mutable state of `NetworkManager.__init__`
(src/network.py lines 24-43).  A peer's socket is identified by its
connection id, a file handle by its path; real I/O is recorded as an
explicit effect list. -/

/-- One receive-side entry of `self.current_files`
(src/network.py line 196). -/
structure FileEntry where
  path : String
  size : Nat
  received : Nat
deriving DecidableEq

structure NMState where
  connection_id : String
  nickname : String
  server_ip : String
  port : Nat
  /-- `self.peers`: connection id ↦ advertised (host, listen port);
  the stream handle of the entry is identified by the connection id. -/
  peers : List (String × (String × Nat))
  /-- `self.connection_map`: (host, listen port) ↦ connection id. -/
  connection_map : List ((String × Nat) × String)
  /-- `self.peer_nicks`: connection id ↦ nickname. -/
  peer_nicks : List (String × String)
  /-- `self.current_files`: sender id ↦ receive-side transfer entry. -/
  current_files : List (String × FileEntry)
  pending_file : Option String
  pending_file_name : Option String
  chat_history : List String
  /-- The set of paths that exist in the filesystem (`os.path.exists`). -/
  fs : List String
deriving DecidableEq

/-- Side effects performed by the manager: socket and file I/O and GUI
callbacks. -/
inductive Effect
  | closeSock (pid : String)
  | sendFrameTo (pid : String) (mt : MessageType) (payload : List Byte)
  | broadcastText (msg : String)
  | broadcastRoster (roster : List (String × Nat × String))
  | guiMessage (msg : String)
  | guiUpdatePeers (roster : List (String × String))
  | guiFileRequest (pid name : String) (size : Nat)
  | guiClearHistory
  | broadcastMeta (name : String) (size : Nat)
  | openFile (path : String)
  | writeFile (path : String) (chunk : List Byte)
  | closeFile (path : String)
deriving DecidableEq

/-- `send_peer_list` payload (src/network.py lines 298-307): every peer's
advertised address and nick, plus a self entry. -/
def rosterWire (s : NMState) : List (String × Nat × String) :=
  s.peers.map (fun p => (p.2.1, p.2.2, (dlookup p.1 s.peer_nicks).getD "")) ++
    [(s.server_ip, s.port, s.nickname)]

/-- `get_peer_list` (src/network.py lines 309-317). -/
def rosterGui (s : NMState) : List (String × String) :=
  s.peers.map (fun p =>
      (p.2.1 ++ ":" ++ Nat.repr p.2.2,
       (dlookup p.1 s.peer_nicks).getD ("User_" ++ Nat.repr p.2.2))) ++
    [(s.server_ip ++ ":" ++ Nat.repr s.port, s.nickname)]

/-- The fresh state built by `NetworkManager.__init__`
(src/network.py lines 24-43): all registries empty. -/
def initState (cid ip : String) (port : Nat) : NMState :=
  { connection_id := cid
    nickname := "User_" ++ Nat.repr port
    server_ip := ip
    port := port
    peers := []
    connection_map := []
    peer_nicks := []
    current_files := []
    pending_file := none
    pending_file_name := none
    chat_history := []
    fs := [] }

/-- `remove_peer` (src/network.py lines 486-502): pop the id from all three
registry maps under the lock, then close the socket, broadcast a disconnect
TEXT, notify the GUI, and re-broadcast the roster.  An absent id returns at
once with no effect. -/
def remove_peer (pid : String) (s : NMState) : NMState × List Effect :=
  match dlookup pid s.peers with
  | none => (s, [])
  | some addr =>
    let nick := (dlookup pid s.peer_nicks).getD "Unknown"
    let s' := { s with peers := dpop pid s.peers
                       peer_nicks := dpop pid s.peer_nicks
                       connection_map := dpop addr s.connection_map }
    let msg := nick ++ " отключился"
    (s', [.closeSock pid, .broadcastText msg, .guiMessage msg,
          .broadcastRoster (rosterWire s'), .guiUpdatePeers (rosterGui s')])

/-- C4.  Peer removal is idempotent: removing the same id again leaves the
state exactly as after the first removal and performs none of the cleanup
effects (no socket close, no disconnect broadcast, no callback, no roster
re-broadcast). -/
theorem remove_peer_idempotent (pid : String) (s : NMState) :
    remove_peer pid (remove_peer pid s).1 = ((remove_peer pid s).1, []) := by
  cases h : dlookup pid s.peers with
  | none => simp [remove_peer, h]
  | some addr =>
    have h2 : dlookup pid (dpop pid s.peers) = none := by
      rw [dlookup_dpop, if_pos rfl]
    simp [remove_peer, h, h2]

/-! ### Registry operations (handshake registration, nick update, removal,
stop) and the three-map agreement invariant. -/

/-- The atomic registration block of `_do_handshake`
(src/network.py lines 115-118): insert into all three maps. -/
def registerPeer (pid : String) (addr : String × Nat) (nick : String)
    (s : NMState) : NMState :=
  { s with peers := dinsert pid addr s.peers
           connection_map := dinsert addr pid s.connection_map
           peer_nicks := dinsert pid nick s.peer_nicks }

/-- The registry-mutating operations of the manager. -/
inductive RegOp
  | register (pid : String) (addr : String × Nat) (nick : String)
  | newNick (pid nick : String)
  | remove (pid : String)
  | stopAll
deriving DecidableEq

/-- One registry operation, as the code performs it:
`register` is the validated handshake insertion (lines 105, 115-118),
`newNick` the NICK handler (lines 277-278), `remove` is `remove_peer`
(lines 486-502), `stopAll` is `stop` (lines 512-514), which removes every
id present in the snapshot of the key list. -/
def applyOp (s : NMState) : RegOp → NMState
  | .register pid addr nick =>
    if pid = s.connection_id ∨ (dlookup pid s.peers).isSome then s
    else registerPeer pid addr nick s
  | .newNick pid nick => { s with peer_nicks := dinsert pid nick s.peer_nicks }
  | .remove pid => (remove_peer pid s).1
  | .stopAll => (s.peers.map Prod.fst).foldl (fun t pid => (remove_peer pid t).1) s

def applyOps (s : NMState) (ops : List RegOp) : NMState := ops.foldl applyOp s

/-- Side conditions under which the agreement invariant is preserved:
a registration must advertise an address not held by a live peer, and a
nickname update must be for a currently registered id. -/
def okOp (s : NMState) : RegOp → Bool
  | .register _ addr _ => decide (addr ∉ s.peers.map Prod.snd)
  | .newNick pid _ => (dlookup pid s.peers).isSome
  | .remove _ => true
  | .stopAll => true

def okOps (s : NMState) : List RegOp → Bool
  | [] => true
  | op :: rest => okOp s op && okOps (applyOp s op) rest

/-- The three-map agreement stated by the claim: `peers` and `peer_nicks`
share their key set, and each registered peer's stored address maps back to
the same id in `connection_map`. -/
structure RegistryAgrees (s : NMState) : Prop where
  keys : ∀ pid : String, (dlookup pid s.peers).isSome ↔ (dlookup pid s.peer_nicks).isSome
  backmap : ∀ (pid : String) (addr : String × Nat),
    dlookup pid s.peers = some addr → dlookup addr s.connection_map = some pid

/-- Auxiliary invariant: distinct registered peers hold distinct addresses. -/
def AddrInj (s : NMState) : Prop :=
  ∀ (p q : String) (a : String × Nat),
    dlookup p s.peers = some a → dlookup q s.peers = some a → p = q

theorem remove_preserves (pid : String) (s : NMState)
    (hA : RegistryAgrees s) (hI : AddrInj s) :
    RegistryAgrees (remove_peer pid s).1 ∧ AddrInj (remove_peer pid s).1 := by
  cases h : dlookup pid s.peers with
  | none => simp only [remove_peer, h]; exact ⟨hA, hI⟩
  | some addr =>
    simp only [remove_peer, h]
    refine ⟨⟨?_, ?_⟩, ?_⟩
    · intro x
      simp only [dlookup_dpop]
      by_cases hx : x = pid
      · simp [hx]
      · simp only [if_neg hx]; exact hA.keys x
    · intro x a hx
      simp only [dlookup_dpop] at hx ⊢
      by_cases hx' : x = pid
      · rw [if_pos hx'] at hx; exact Option.noConfusion hx
      · rw [if_neg hx'] at hx
        have ha : ¬ a = addr := by
          intro hh; subst hh
          exact hx' (hI x pid a hx h)
        rw [if_neg ha]
        exact hA.backmap x a hx
    · intro p q a hp hq
      simp only [dlookup_dpop] at hp hq
      by_cases hp' : p = pid
      · rw [if_pos hp'] at hp; exact Option.noConfusion hp
      · rw [if_neg hp'] at hp
        by_cases hq' : q = pid
        · rw [if_pos hq'] at hq; exact Option.noConfusion hq
        · rw [if_neg hq'] at hq; exact hI p q a hp hq

theorem foldl_remove_preserves (l : List String) :
    ∀ s : NMState, RegistryAgrees s → AddrInj s →
      RegistryAgrees (l.foldl (fun t pid => (remove_peer pid t).1) s) ∧
      AddrInj (l.foldl (fun t pid => (remove_peer pid t).1) s) := by
  induction l with
  | nil => intro s hA hI; exact ⟨hA, hI⟩
  | cons pid l ih =>
    intro s hA hI
    obtain ⟨hA2, hI2⟩ := remove_preserves pid s hA hI
    exact ih _ hA2 hI2

theorem applyOp_preserves (s : NMState) (op : RegOp)
    (hA : RegistryAgrees s) (hI : AddrInj s) (hok : okOp s op = true) :
    RegistryAgrees (applyOp s op) ∧ AddrInj (applyOp s op) := by
  cases op with
  | register pid addr nick =>
    simp only [applyOp]
    by_cases hg : pid = s.connection_id ∨ (dlookup pid s.peers).isSome
    · rw [if_pos hg]; exact ⟨hA, hI⟩
    · rw [if_neg hg]
      have hmem : addr ∉ s.peers.map Prod.snd := of_decide_eq_true hok
      have hfresh : ∀ q, ¬ dlookup q s.peers = some addr :=
        fun q hq => hmem (dlookup_mem_snd hq)
      refine ⟨⟨?_, ?_⟩, ?_⟩
      · intro x
        simp only [registerPeer, dlookup_dinsert]
        by_cases hx : x = pid
        · simp [hx]
        · simp only [if_neg hx]; exact hA.keys x
      · intro x a hx
        simp only [registerPeer, dlookup_dinsert] at hx ⊢
        by_cases hx' : x = pid
        · rw [if_pos hx'] at hx
          injection hx with hx
          subst hx
          rw [if_pos rfl, hx']
        · rw [if_neg hx'] at hx
          have ha : ¬ a = addr := fun hh => hfresh x (hh ▸ hx)
          rw [if_neg ha]
          exact hA.backmap x a hx
      · intro p q a hp hq
        simp only [registerPeer, dlookup_dinsert] at hp hq
        by_cases hp' : p = pid <;> by_cases hq' : q = pid
        · rw [hp', hq']
        · rw [if_pos hp'] at hp
          injection hp with hp
          rw [if_neg hq'] at hq
          exact absurd hq (hp ▸ hfresh q)
        · rw [if_pos hq'] at hq
          injection hq with hq
          rw [if_neg hp'] at hp
          exact absurd hp (hq ▸ hfresh p)
        · rw [if_neg hp'] at hp
          rw [if_neg hq'] at hq
          exact hI p q a hp hq
  | newNick pid nick =>
    simp only [applyOp]
    refine ⟨⟨?_, hA.backmap⟩, hI⟩
    intro x
    simp only [dlookup_dinsert]
    by_cases hx : x = pid
    · subst hx
      simp only [if_pos rfl, Option.isSome_some, iff_true]
      simpa [okOp] using hok
    · simp only [if_neg hx]; exact hA.keys x
  | remove pid => exact remove_preserves pid s hA hI
  | stopAll => exact foldl_remove_preserves _ s hA hI

theorem okOps_preserves (ops : List RegOp) :
    ∀ s : NMState, RegistryAgrees s → AddrInj s → okOps s ops = true →
      RegistryAgrees (applyOps s ops) ∧ AddrInj (applyOps s ops) := by
  induction ops with
  | nil => intro s hA hI _; exact ⟨hA, hI⟩
  | cons op rest ih =>
    intro s hA hI hok
    simp only [okOps, Bool.and_eq_true] at hok
    simp only [applyOps, List.foldl_cons]
    obtain ⟨hA2, hI2⟩ := applyOp_preserves s op hA hI hok.1
    exact ih _ hA2 hI2 hok.2

/-- C3 (amended).  Starting from the fresh manager state, the three registry
maps agree after every sequence of registry operations, provided each
registration advertises an address no live peer holds and each nickname
update is for a currently registered id. -/
theorem registry_consistency (cid ip : String) (port : Nat) (ops : List RegOp)
    (hok : okOps (initState cid ip port) ops = true) :
    RegistryAgrees (applyOps (initState cid ip port) ops) :=
  (okOps_preserves ops _
    ⟨fun _ => by simp [dlookup, initState], fun _ _ h => by simp [dlookup, initState] at h⟩
    (fun _ _ _ h => by simp [dlookup, initState] at h) hok).1

/-- C3 counterexample.  As stated, the claim is false on the code: two
handshakes advertising the same (host, listen port) overwrite the
`connection_map` entry (first trace), and a nickname update arriving after
the peer was removed leaves a `peer_nicks` key with no `peers` entry
(second trace). -/
theorem registry_consistency_counterexample :
    ¬ RegistryAgrees (applyOps (initState "self" "ip" 1)
        [.register "A" ("h", 1) "na", .register "B" ("h", 1) "nb"]) ∧
    ¬ RegistryAgrees (applyOps (initState "self" "ip" 1)
        [.register "A" ("h", 1) "na", .remove "A", .newNick "A" "x"]) := by
  constructor
  · intro h
    have h2 := h.backmap "A" ("h", 1) (by decide)
    exact absurd h2 (by decide)
  · intro h
    have h1 := (h.keys "A").2 (by decide)
    exact absurd h1 (by decide)

/-- Witness for C3 (amended) on a concrete operation trace exercising all
four operation kinds. -/
theorem registry_consistency_witness :
    okOps (initState "self" "ip" 9)
      [.register "A" ("h", 1) "na", .newNick "A" "n2",
       .register "B" ("h", 2) "nb", .remove "A", .stopAll] = true ∧
    RegistryAgrees (applyOps (initState "self" "ip" 9)
      [.register "A" ("h", 1) "na", .newNick "A" "n2",
       .register "B" ("h", 2) "nb", .remove "A", .stopAll]) :=
  ⟨by decide,
   registry_consistency "self" "ip" 9
     [.register "A" ("h", 1) "na", .newNick "A" "n2",
      .register "B" ("h", 2) "nb", .remove "A", .stopAll] (by decide)⟩

/-! ### Handshake on a freshly accepted stream

`accept_connections` spawns `_on_new_connection` (src/network.py lines
56-76), which runs `_do_handshake` (lines 92-124) and closes the stream
only when the handshake returns `(None, None)`; `_on_new_connection` has no
exception handler, so an exception raised inside `_do_handshake`
(unknown tag `ValueError`, `json.JSONDecodeError`, `KeyError`,
`UnicodeDecodeError`) escapes and the socket is never closed. -/

/-- The parsed CONNECTION_ID record (`json.loads` + `info['conn_id']`,
`info.get('nickname', ...)`, `info.get('listen_port', ...)`). -/
structure ConnInfo where
  conn_id : String
  nickname : String
  listen_port : Nat
deriving DecidableEq

/-- Outcome of `json.loads(data.decode())` plus the field accesses, treated
as an oracle on the payload bytes: `fails` models a raised exception. -/
inductive ParseResult
  | fails
  | ok (info : ConnInfo)
deriving DecidableEq

/-- What arrives on a freshly accepted stream: the accept-address host, the
result of `receive_all(conn, 8)`, the result of `receive_all(conn, ln)` and
the parse outcome of the payload. -/
structure AcceptInput where
  host : String
  header : Option (List Byte)
  body : Option (List Byte)
  parsed : ParseResult
deriving DecidableEq

inductive AcceptOutcome
  | registered (pid : String)
  | rejected
  | raised
deriving DecidableEq

/-- `_do_handshake` (src/network.py lines 92-124).  `conn` identifies the
accepted stream.  `.raised` marks the paths on which the Python code raises
out of the function. -/
def do_handshake (s : NMState) (conn : String) (inp : AcceptInput) :
    NMState × List Effect × AcceptOutcome :=
  match inp.header with
  | none => (s, [], .rejected)
  | some hdr =>
    match fromTag (hdr.take 4) with
    | none => (s, [], .raised)
    | some mt =>
      if mt ≠ .CONNECTION_ID ∨ inp.body = none ∨ inp.body = some [] then
        (s, [], .rejected)
      else
        match inp.parsed with
        | .fails => (s, [], .raised)
        | .ok info =>
          if info.conn_id = s.connection_id ∨ (dlookup info.conn_id s.peers).isSome then
            (s, [], .rejected)
          else
            let s2 := registerPeer info.conn_id (inp.host, info.listen_port)
              info.nickname s
            let s3 := { s2 with chat_history :=
              s2.chat_history ++ [info.nickname ++ " подключился"] }
            (s3,
             [.sendFrameTo conn .CONNECTION_ID [],
              .guiMessage (info.nickname ++ " подключился"),
              .broadcastRoster (rosterWire s3), .guiUpdatePeers (rosterGui s3)],
             .registered info.conn_id)

/-- `_on_new_connection` (src/network.py lines 72-88): `conn.close()` runs
only when `_do_handshake` returned no peer id by normal control flow; a
raised exception skips it (there is no `try` in this function). -/
def on_new_connection (s : NMState) (conn : String) (inp : AcceptInput) :
    NMState × List Effect × AcceptOutcome :=
  match do_handshake s conn inp with
  | (s2, effs, .rejected) => (s2, effs ++ [.closeSock conn], .rejected)
  | r => r

/-! ### One dispatcher read step, in both variants

src/network.py lines 208-221 versus chat/network.py lines 143-154. -/

inductive ReadOutcome
  | closed
  | raised
  | frame (mt : MessageType) (data : List Byte)
deriving DecidableEq

/-- The frame-read phase of `handle_messages` in src/network.py
(lines 208-221): a missing header breaks the loop; `data` is read only when
`length > 0` and only `data is None` breaks; a zero length yields `b''`
and the loop proceeds to dispatch. -/
def readFrame_src (header body : Option (List Byte)) : ReadOutcome :=
  match header with
  | none => .closed
  | some hdr =>
    match fromTag (hdr.take 4) with
    | none => .raised
    | some mt =>
      let length := fromBytesBE (hdr.drop 4)
      if length > 0 then
        match body with
        | none => .closed
        | some data => .frame mt data
      else .frame mt []

/-- The `MessageType` enum of chat/network.py (lines 16-24) has no
FILE_ACCEPT, FILE_DECLINE or CLEAR_HISTORY members, so those tags raise
`ValueError` there. -/
def fromTagChat (bs : List Byte) : Option MessageType :=
  if bs = tagBytes .TEXT then some .TEXT
  else if bs = tagBytes .FILE_META then some .FILE_META
  else if bs = tagBytes .FILE_DATA then some .FILE_DATA
  else if bs = tagBytes .NICK then some .NICK
  else if bs = tagBytes .PEER_LIST then some .PEER_LIST
  else if bs = tagBytes .HEARTBEAT then some .HEARTBEAT
  else if bs = tagBytes .CONNECTION_ID then some .CONNECTION_ID
  else none

/-- The frame-read phase of `handle_messages` in chat/network.py
(lines 143-154): HEARTBEAT skips the payload read; otherwise
`data = receive_all(conn, length)` and `if not data: break`, which treats
both `None` and the empty payload `b''` as a closed connection.
A `None` header raises `TypeError` at `header[:4]`, caught by the broad
`except`, which also exits the loop. -/
def readFrame_chat (header body : Option (List Byte)) : ReadOutcome :=
  match header with
  | none => .raised
  | some hdr =>
    match fromTagChat (hdr.take 4) with
    | none => .raised
    | some mt =>
      if mt = .HEARTBEAT then .frame .HEARTBEAT []
      else
        match body with
        | none => .closed
        | some data => if data = [] then .closed else .frame mt data

/-! ### Destination path resolution (`handle_file_meta`, `save_file`)

src/network.py lines 188-195 and chat/utils.py lines 68-79:
`path = downloads/name`; while the path exists, retry with
`downloads/{base}_{count}{ext}`, `count` starting at 1, where
`base, ext = os.path.splitext(name)`. -/

/-- Index of the last `'.'` of the name, if any. -/
def lastDotIdx (cs : List Char) : Option Nat :=
  match cs.reverse.findIdx? (fun c => decide (c = '.')) with
  | none => none
  | some j => some (cs.length - 1 - j)

/-- `os.path.splitext` on a bare file name: split at the last dot unless
every character before it is itself a dot (leading dots never start an
extension: `splitext('.bashrc') = ('.bashrc', '')`). -/
def splitext (name : String) : String × String :=
  let cs := name.toList
  match lastDotIdx cs with
  | none => (name, "")
  | some i =>
    if (cs.take i).any (fun c => decide (c ≠ '.')) then
      (String.mk (cs.take i), String.mk (cs.drop i))
    else (name, "")

/-- The `while os.path.exists(path)` loop.  The Python loop is unbounded;
the fuel below is set to `existing.length + 1`, which the first-fit theorem
proves sufficient. -/
def collisionLoop (existing : List String) (base ext : String) :
    String → Nat → Nat → String
  | path, _, 0 => path
  | path, count, fuel + 1 =>
    if path ∈ existing then
      collisionLoop existing base ext
        ("downloads/" ++ base ++ "_" ++ Nat.repr count ++ ext) (count + 1) fuel
    else path

/-- Destination path chosen by `handle_file_meta` (src/network.py lines
188-195) as a function of the file name and the existing directory
contents. -/
def resolvePath (existing : List String) (name : String) : String :=
  let be := splitext name
  collisionLoop existing be.1 be.2 ("downloads/" ++ name) 1 (existing.length + 1)

/-! ### File transfer handlers -/

/-- `handle_file_meta` (src/network.py lines 184-197) for a parseable
payload carrying `name` and `size`: resolve a fresh destination path, open
it, and unconditionally install a new `current_files` entry for the sender
id.  A pre-existing in-flight entry for the same id is overwritten; its
file handle is never closed. -/
def handle_file_meta (pid name : String) (size : Nat) (s : NMState) :
    NMState × List Effect :=
  let path := resolvePath s.fs name
  let entry : FileEntry := { path := path, size := size, received := 0 }
  ({ s with current_files := dinsert pid entry s.current_files
            fs := path :: s.fs },
   [.openFile path,
    .guiMessage ((dlookup pid s.peer_nicks).getD "?" ++ " отправляет файл: " ++ name)])

/-- The FILE_DATA branch of `handle_messages` (src/network.py lines
256-265): no matching entry drops the chunk silently; otherwise the bytes
are written, `received` is advanced, and on reaching the declared size the
file is closed, the GUI notified and the entry deleted. -/
def handle_file_data (pid : String) (chunk : List Byte) (s : NMState) :
    NMState × List Effect :=
  match dlookup pid s.current_files with
  | none => (s, [])
  | some info =>
    let received2 := info.received + chunk.length
    if received2 ≥ info.size then
      ({ s with current_files := dpop pid s.current_files },
       [.writeFile info.path chunk, .closeFile info.path,
        .guiMessage ("Файл сохранён по: " ++ info.path)])
    else
      ({ s with current_files :=
          dinsert pid { info with received := received2 } s.current_files },
       [.writeFile info.path chunk])

/-- `send_file` (src/network.py lines 400-412): record the pending outbound
slot and broadcast the FILE_META announcement. -/
def send_file (path name : String) (size : Nat) (s : NMState) :
    NMState × List Effect :=
  ({ s with pending_file := some path, pending_file_name := some name },
   [.broadcastMeta name size])

/-- `respond_file` (src/network.py lines 424-432): the GUI answer to a file
offer.  Decline only sends a FILE_DECLINE frame; accept sends FILE_ACCEPT
(after the no-op `info['path'] = info.get('path')`).  Neither branch
touches `current_files`. -/
def respond_file (pid : String) (accept : Bool) (s : NMState) :
    NMState × List Effect :=
  if accept then (s, [.sendFrameTo pid .FILE_ACCEPT []])
  else (s, [.sendFrameTo pid .FILE_DECLINE []])

/-- The FILE_DECLINE branch of `handle_messages` (src/network.py lines
250-254) on the sending side: broadcast and display a notice.
`pending_file` and `pending_file_name` are not cleared. -/
def handle_file_decline (pid : String) (s : NMState) : NMState × List Effect :=
  let decliner := (dlookup pid s.peer_nicks).getD "?"
  let notify := "Пользователь " ++ decliner ++ " отклонил файл " ++
    (s.pending_file_name.getD "None")
  (s, [.broadcastText notify, .guiMessage notify])

/-! ### `receive_all` (chat/utils.py lines 11-40)

The socket is modelled by the schedule of what successive loop iterations
observe: a 1-second `select` tick with no data (`timeout`), a transient
`socket.timeout`/`BlockingIOError` (`wouldBlock`), a reset/broken stream
(`reset`), a clean close — `recv` returning `b''` (`closed`) — or a
delivery of bytes, of which `recv` consumes at most
`min(4096, remaining)`.  A finite schedule models a stream that eventually
stalls forever; once it is exhausted (or once more than 300 seconds of
ticks have accumulated, mirroring lines 22-23) the call returns `None`. -/

inductive RecvEvent
  | timeout
  | wouldBlock
  | reset
  | closed
  | data (bs : List Byte)
deriving DecidableEq

def totalData : List RecvEvent → Nat
  | [] => 0
  | .data bs :: rest => bs.length + totalData rest
  | _ :: rest => totalData rest

def receive_all_loop (length : Nat) :
    List RecvEvent → List Byte → Nat → Option (List Byte)
  | [], acc, _ => if length ≤ acc.length then some acc else none
  | .timeout :: rest, acc, elapsed =>
    if length ≤ acc.length then some acc
    else if 300 < elapsed then none
    else receive_all_loop length rest acc (elapsed + 1)
  | .wouldBlock :: rest, acc, elapsed =>
    if length ≤ acc.length then some acc
    else if 300 < elapsed then none
    else receive_all_loop length rest acc elapsed
  | .reset :: _, acc, _ =>
    if length ≤ acc.length then some acc else none
  | .closed :: _, acc, _ =>
    if length ≤ acc.length then some acc else none
  | .data bs :: rest, acc, elapsed =>
    if length ≤ acc.length then some acc
    else if 300 < elapsed then none
    else
      if bs.take (min 4096 (length - acc.length)) = [] then none
      else receive_all_loop length rest
        (acc ++ bs.take (min 4096 (length - acc.length))) elapsed

/-- `receive_all(sock, length)` under a given socket schedule. -/
def receive_all (events : List RecvEvent) (length : Nat) : Option (List Byte) :=
  receive_all_loop length events [] 0

theorem receive_all_loop_exact (length : Nat) (events : List RecvEvent) :
    ∀ (acc : List Byte) (elapsed : Nat), acc.length ≤ length →
      (∀ d, receive_all_loop length events acc elapsed = some d →
        d.length = length) ∧
      (totalData events + acc.length < length →
        receive_all_loop length events acc elapsed = none) := by
  induction events with
  | nil =>
    intro acc elapsed hle
    constructor
    · intro d h
      simp only [receive_all_loop] at h
      split_ifs at h with h1
      injection h with h
      subst h
      omega
    · intro hlt
      simp only [totalData] at hlt
      simp only [receive_all_loop]
      rw [if_neg (by omega)]
  | cons e rest ih =>
    intro acc elapsed hle
    constructor
    · intro d h
      cases e with
      | timeout =>
        simp only [receive_all_loop] at h
        split_ifs at h with h1 h2
        · injection h with h; subst h; omega
        · exact (ih acc (elapsed + 1) hle).1 d h
      | wouldBlock =>
        simp only [receive_all_loop] at h
        split_ifs at h with h1 h2
        · injection h with h; subst h; omega
        · exact (ih acc elapsed hle).1 d h
      | reset =>
        simp only [receive_all_loop] at h
        split_ifs at h with h1
        injection h with h; subst h; omega
      | closed =>
        simp only [receive_all_loop] at h
        split_ifs at h with h1
        injection h with h; subst h; omega
      | data bs =>
        simp only [receive_all_loop] at h
        split_ifs at h with h1 h2 h3
        · injection h with h; subst h; omega
        · have hlen : (acc ++ bs.take (min 4096 (length - acc.length))).length ≤ length := by
            simp only [List.length_append, List.length_take]
            omega
          exact (ih _ elapsed hlen).1 d h
    · intro hlt
      cases e with
      | timeout =>
        simp only [totalData] at hlt
        simp only [receive_all_loop]
        rw [if_neg (by omega)]
        split_ifs with h2
        · rfl
        · exact (ih acc (elapsed + 1) hle).2 (by omega)
      | wouldBlock =>
        simp only [totalData] at hlt
        simp only [receive_all_loop]
        rw [if_neg (by omega)]
        split_ifs with h2
        · rfl
        · exact (ih acc elapsed hle).2 (by omega)
      | reset =>
        simp only [totalData] at hlt
        simp only [receive_all_loop]
        rw [if_neg (by omega)]
      | closed =>
        simp only [totalData] at hlt
        simp only [receive_all_loop]
        rw [if_neg (by omega)]
      | data bs =>
        simp only [totalData] at hlt
        simp only [receive_all_loop]
        rw [if_neg (by omega)]
        split_ifs with h2 h3
        · rfl
        · rfl
        · have hlen : (acc ++ bs.take (min 4096 (length - acc.length))).length ≤ length := by
            simp only [List.length_append, List.length_take]
            omega
          refine (ih _ elapsed hlen).2 ?_
          simp only [List.length_append, List.length_take]
          omega

/-- C9.  `receive_all` returns exactly the requested number of bytes or a
terminal `None`; when the schedule offers fewer bytes than requested before
stalling, the result is `None`, never a short read. -/
theorem receive_all_exact (events : List RecvEvent) (length : Nat) :
    (∀ data, receive_all events length = some data → data.length = length) ∧
    (totalData events < length → receive_all events length = none) := by
  have h := receive_all_loop_exact length events [] 0 (by simp)
  exact ⟨fun d hd => h.1 d hd, fun hlt => h.2 (by simpa using hlt)⟩

/-- Witness for C9: a 2-byte read off a 3-byte delivery returns exactly 2
bytes, and a 2-byte read with only 1 byte available returns `None`. -/
theorem receive_all_exact_witness :
    (([104, 105] : List Byte)).length = 2 ∧
    receive_all [.timeout, .data [104]] 2 = none :=
  ⟨(receive_all_exact [.data [104, 105, 106]] 2).1 [104, 105] (by decide),
   (receive_all_exact [.timeout, .data [104]] 2).2 (by decide)⟩

/-! ### Claim theorems on the handshake, dispatcher and file transfer -/

/-- C2 (failing input).  A freshly accepted stream delivers a well-formed
CONNECTION_ID header and a 1-byte payload `0x78` that is not valid JSON:
`json.loads` raises, the exception escapes `_on_new_connection`, the peer
is not registered and — against the claim — no `conn.close()` runs.  On a
normal-control-flow rejection (here: an empty payload) the stream is
closed, as the claim demands. -/
theorem handshake_parse_failure_leaves_socket_open :
    on_new_connection (initState "self" "ip" 1) "c"
      { host := "h", header := some [67, 79, 78, 78, 0, 0, 0, 1],
        body := some [120], parsed := .fails } =
      (initState "self" "ip" 1, [], .raised) ∧
    on_new_connection (initState "self" "ip" 1) "c"
      { host := "h", header := some [67, 79, 78, 78, 0, 0, 0, 0],
        body := some [], parsed := .fails } =
      (initState "self" "ip" 1, [.closeSock "c"], .rejected) := by
  constructor <;> rfl

/-- C5 (failing input).  A TEXT frame whose length field is 0: the
chat/network.py dispatcher hits `if not data: break` on the empty payload
and exits (the connection is then torn down), while the src/network.py
dispatcher dispatches the empty payload and continues, as the claim
states. -/
theorem zero_length_frame_breaks_chat_dispatcher :
    readFrame_chat (some [84, 69, 88, 84, 0, 0, 0, 0]) (some []) = .closed ∧
    readFrame_src (some [84, 69, 88, 84, 0, 0, 0, 0]) (some []) = .frame .TEXT [] := by
  constructor <;> rfl

/-- C6.  FILE_DATA postcondition: a chunk from an id with no entry leaves
the state unchanged with no effects; with an entry, the bytes are written
and `received` advances by the chunk length, and the file is closed, the
callback notified and the entry removed exactly when the accumulated bytes
reach the declared size. -/
theorem handle_file_data_postcondition (s : NMState) (pid : String) (chunk : List Byte) :
    (dlookup pid s.current_files = none → handle_file_data pid chunk s = (s, [])) ∧
    (∀ info : FileEntry, dlookup pid s.current_files = some info →
      Effect.writeFile info.path chunk ∈ (handle_file_data pid chunk s).2 ∧
      (info.received + chunk.length ≥ info.size ↔
        (dlookup pid (handle_file_data pid chunk s).1.current_files = none ∧
         Effect.closeFile info.path ∈ (handle_file_data pid chunk s).2 ∧
         Effect.guiMessage ("Файл сохранён по: " ++ info.path) ∈
           (handle_file_data pid chunk s).2)) ∧
      (info.received + chunk.length < info.size →
        dlookup pid (handle_file_data pid chunk s).1.current_files =
          some { info with received := info.received + chunk.length })) := by
  constructor
  · intro h
    simp [handle_file_data, h]
  · intro info h
    by_cases hge : info.received + chunk.length ≥ info.size
    · simp only [handle_file_data, h, if_pos hge]
      refine ⟨by simp, ?_, by omega⟩
      simp [hge, dlookup_dpop]
    · simp only [handle_file_data, h, if_neg hge]
      refine ⟨by simp, ?_, ?_⟩
      · simp only [dlookup_dinsert, if_pos rfl]
        constructor
        · intro hc; exact absurd hc hge
        · rintro ⟨hc, -⟩; exact absurd hc (by simp)
      · intro _
        simp [dlookup_dinsert]

/-- Witness for C6: a 3-byte chunk completing a 3-byte transfer closes the
file; a chunk for an unknown id is dropped with no effect. -/
theorem handle_file_data_postcondition_witness :
    handle_file_data "Q" [1]
      { initState "x" "ip" 1 with
        current_files := [("P", ⟨"downloads/a", 3, 0⟩)] } =
      ({ initState "x" "ip" 1 with
        current_files := [("P", ⟨"downloads/a", 3, 0⟩)] }, []) ∧
    Effect.closeFile "downloads/a" ∈
      (handle_file_data "P" [1, 2, 3]
        { initState "x" "ip" 1 with
          current_files := [("P", ⟨"downloads/a", 3, 0⟩)] }).2 :=
  ⟨(handle_file_data_postcondition
      { initState "x" "ip" 1 with current_files := [("P", ⟨"downloads/a", 3, 0⟩)] }
      "Q" [1]).1 (by decide),
   (((handle_file_data_postcondition
      { initState "x" "ip" 1 with current_files := [("P", ⟨"downloads/a", 3, 0⟩)] }
      "P" [1, 2, 3]).2 ⟨"downloads/a", 3, 0⟩ (by decide)).2.1.mp (by decide)).2.1⟩

/-- C7 (failing input).  After a FILE_META for peer `P` the receiver holds
a `current_files` entry; declining with `respond_file(P, accept=False)`
sends only the FILE_DECLINE frame: it writes no data, but — against the
claim — the receive-side entry survives, and on the sending side the
FILE_DECLINE handler leaves `pending_file`/`pending_file_name` set. -/
theorem respond_file_decline_no_cleanup :
    (let s := (handle_file_meta "P" "f.txt" 5
        (registerPeer "P" ("h", 1) "pn" (initState "r" "ip" 2))).1
     respond_file "P" false s =
       (s, [.sendFrameTo "P" .FILE_DECLINE []]) ∧
     dlookup "P" s.current_files =
       some { path := "downloads/f.txt", size := 5, received := 0 }) ∧
    (let t := (send_file "/tmp/f.txt" "f.txt" 5 (initState "s" "ip" 3)).1
     (handle_file_decline "P" t).1.pending_file = some "/tmp/f.txt" ∧
     (handle_file_decline "P" t).1.pending_file_name = some "f.txt") := by
  exact ⟨⟨rfl, by decide⟩, ⟨rfl, rfl⟩⟩

/-- C10.  `handle_file_meta` unconditionally installs a fresh entry
(`received = 0`, the declared size, the freshly resolved path) for the
sending id and never emits a file-close, so an in-flight entry for the
same id is overwritten without its handle being closed. -/
theorem handle_file_meta_overwrites (s : NMState) (pid name : String) (size : Nat) :
    dlookup pid (handle_file_meta pid name size s).1.current_files =
      some { path := resolvePath s.fs name, size := size, received := 0 } ∧
    (∀ p, Effect.closeFile p ∉ (handle_file_meta pid name size s).2) ∧
    (∀ old : FileEntry, dlookup pid s.current_files = some old →
      dlookup pid (handle_file_meta pid name size s).1.current_files ≠
        some old ∨ old = { path := resolvePath s.fs name, size := size, received := 0 }) := by
  refine ⟨?_, ?_, ?_⟩
  · simp [handle_file_meta, dlookup_dinsert]
  · intro p hp
    simp [handle_file_meta] at hp
  · intro old hold
    by_cases he : old = { path := resolvePath s.fs name, size := size, received := 0 }
    · exact Or.inr he
    · refine Or.inl ?_
      simp only [handle_file_meta, dlookup_dinsert, if_pos rfl]
      intro hc
      injection hc with hc
      exact he hc.symm

/-- Witness for C10: an in-flight entry for `P` is overwritten by a new
FILE_META (with the collision-resolved path) and no close is emitted. -/
theorem handle_file_meta_overwrites_witness :
    dlookup "P" ((handle_file_meta "P" "f.txt" 5
        { initState "r" "ip" 2 with
          current_files := [("P", ⟨"downloads/old", 9, 4⟩)],
          fs := ["downloads/f.txt"] }).1.current_files) =
      some { path := "downloads/f_1.txt", size := 5, received := 0 } ∧
    (Effect.closeFile "downloads/old" ∉
      (handle_file_meta "P" "f.txt" 5
        { initState "r" "ip" 2 with
          current_files := [("P", ⟨"downloads/old", 9, 4⟩)],
          fs := ["downloads/f.txt"] }).2) ∧
    (dlookup "P" ((handle_file_meta "P" "f.txt" 5
        { initState "r" "ip" 2 with
          current_files := [("P", ⟨"downloads/old", 9, 4⟩)],
          fs := ["downloads/f.txt"] }).1.current_files) ≠
        some ⟨"downloads/old", 9, 4⟩ ∨
      (⟨"downloads/old", 9, 4⟩ : FileEntry) =
        { path := "downloads/f_1.txt", size := 5, received := 0 }) := by
  have h := handle_file_meta_overwrites
    { initState "r" "ip" 2 with
      current_files := [("P", ⟨"downloads/old", 9, 4⟩)],
      fs := ["downloads/f.txt"] } "P" "f.txt" 5
  have hres : resolvePath ["downloads/f.txt"] "f.txt" = "downloads/f_1.txt" := by decide
  exact ⟨hres ▸ h.1, h.2.1 "downloads/old",
    hres ▸ h.2.2 ⟨"downloads/old", 9, 4⟩ (by decide)⟩

/-! ### First-fit characterisation of the collision loop (C8)

The loop builds candidate names with `f"{base}_{count}{ext}"`, i.e. with
`Nat.repr count`; to show that `existing.length + 1` iterations always
reach a fresh name we need the decimal rendering of distinct counters to
be distinct, which we prove through an explicit most-significant-first
digit list. -/

def myDigits (n : Nat) : List Char :=
  if h : n < 10 then [Nat.digitChar n]
  else
    have : n / 10 < n := Nat.div_lt_self (by omega) (by omega)
    myDigits (n / 10) ++ [Nat.digitChar (n % 10)]

theorem myDigits_lt (n : Nat) (h : n < 10) : myDigits n = [Nat.digitChar n] := by
  rw [myDigits, dif_pos h]

theorem myDigits_ge (n : Nat) (h : ¬ n < 10) :
    myDigits n = myDigits (n / 10) ++ [Nat.digitChar (n % 10)] := by
  rw [myDigits, dif_neg h]

theorem myDigits_ne_nil (n : Nat) : myDigits n ≠ [] := by
  by_cases h : n < 10
  · rw [myDigits_lt n h]; simp
  · rw [myDigits_ge n h]; simp

theorem toDigitsCore_eq_myDigits :
    ∀ (fuel n : Nat) (acc : List Char), n < fuel →
      Nat.toDigitsCore 10 fuel n acc = myDigits n ++ acc := by
  intro fuel
  induction fuel with
  | zero => intro n acc h; exact absurd h (Nat.not_lt_zero n)
  | succ fuel ih =>
    intro n acc h
    simp only [Nat.toDigitsCore]
    by_cases h10 : n / 10 = 0
    · rw [if_pos h10]
      have hn : n < 10 := by omega
      rw [myDigits_lt n hn, Nat.mod_eq_of_lt hn]
      rfl
    · rw [if_neg h10]
      have hdiv : n / 10 < n := Nat.div_lt_self (by omega) (by omega)
      rw [ih (n / 10) _ (by omega), myDigits_ge n (by omega)]
      simp

theorem repr_eq_myDigits (n : Nat) : Nat.repr n = (myDigits n).asString := by
  show (Nat.toDigits 10 n).asString = _
  rw [Nat.toDigits, toDigitsCore_eq_myDigits (n + 1) n [] (Nat.lt_succ_self n)]
  simp

theorem digitChar_inj_lt :
    ∀ m < 10, ∀ k < 10, Nat.digitChar m = Nat.digitChar k → m = k := by decide

theorem myDigits_inj (n : Nat) : ∀ m, myDigits n = myDigits m → n = m := by
  induction n using Nat.strong_induction_on with
  | _ n ih =>
    intro m h
    by_cases hn : n < 10 <;> by_cases hm : m < 10
    · rw [myDigits_lt n hn, myDigits_lt m hm] at h
      injection h with h1 _
      exact digitChar_inj_lt n hn m hm h1
    · rw [myDigits_lt n hn, myDigits_ge m hm] at h
      have hlen := congrArg List.length h
      have hpos := List.length_pos.mpr (myDigits_ne_nil (m / 10))
      simp only [List.length_append, List.length_cons, List.length_nil] at hlen
      omega
    · rw [myDigits_ge n hn, myDigits_lt m hm] at h
      have hlen := congrArg List.length h
      have hpos := List.length_pos.mpr (myDigits_ne_nil (n / 10))
      simp only [List.length_append, List.length_cons, List.length_nil] at hlen
      omega
    · rw [myDigits_ge n hn, myDigits_ge m hm] at h
      obtain ⟨h1, h2⟩ := List.append_inj' h (by simp)
      have hd : n / 10 = m / 10 :=
        ih (n / 10) (Nat.div_lt_self (by omega) (by omega)) (m / 10) h1
      have hc : Nat.digitChar (n % 10) = Nat.digitChar (m % 10) := by
        injection h2
      have hm2 : n % 10 = m % 10 :=
        digitChar_inj_lt _ (Nat.mod_lt _ (by omega)) _ (Nat.mod_lt _ (by omega)) hc
      omega

theorem nat_repr_inj {n m : Nat} (h : Nat.repr n = Nat.repr m) : n = m := by
  rw [repr_eq_myDigits, repr_eq_myDigits] at h
  exact myDigits_inj n m (congrArg String.data h)

theorem repr_length_pos (n : Nat) : 0 < (Nat.repr n).length := by
  rw [repr_eq_myDigits]
  show 0 < (myDigits n).length
  exact List.length_pos.mpr (myDigits_ne_nil n)

theorem splitext_append (name : String) :
    (splitext name).1 ++ (splitext name).2 = name := by
  unfold splitext
  cases h : lastDotIdx name.toList with
  | none =>
    simp only [h]
    apply String.ext
    rw [String.data_append]
    simp
  | some i =>
    simp only [h]
    split_ifs with ha
    · show String.mk (name.toList.take i) ++ String.mk (name.toList.drop i) = name
      apply String.ext
      rw [String.data_append]
      show name.toList.take i ++ name.toList.drop i = name.data
      rw [List.take_append_drop]
      rfl
    · show name ++ "" = name
      apply String.ext
      rw [String.data_append]
      simp

/-- Candidate path list of the collision loop for given `base`/`ext`:
index 0 is `downloads/name` and index `k ≥ 1` is `downloads/base_k ext`. -/
def candFrom (base ext : String) : Nat → String
  | 0 => "downloads/" ++ base ++ ext
  | k + 1 => "downloads/" ++ base ++ "_" ++ Nat.repr (k + 1) ++ ext

/-- The candidate sequence of the claim, expressed on the file name. -/
def cand (name : String) : Nat → String
  | 0 => "downloads/" ++ name
  | k + 1 =>
    "downloads/" ++ (splitext name).1 ++ "_" ++ Nat.repr (k + 1) ++ (splitext name).2

theorem cand_eq_candFrom (name : String) (k : Nat) :
    cand name k = candFrom (splitext name).1 (splitext name).2 k := by
  cases k with
  | zero =>
    show "downloads/" ++ name =
      "downloads/" ++ (splitext name).1 ++ (splitext name).2
    apply String.ext
    have h := congrArg String.data (splitext_append name)
    rw [String.data_append] at h
    simp only [String.data_append]
    rw [List.append_assoc, h]
  | succ k => rfl

theorem candFrom_zero_ne_succ (base ext : String) (k : Nat) :
    candFrom base ext 0 ≠ candFrom base ext (k + 1) := by
  intro h
  have hd := congrArg (fun s => s.data.length) h
  simp only [candFrom, String.data_append, List.length_append] at hd
  have h2 : 0 < (Nat.repr (k + 1)).data.length := repr_length_pos (k + 1)
  omega

theorem candFrom_succ_inj (base ext : String) (j k : Nat)
    (h : candFrom base ext (j + 1) = candFrom base ext (k + 1)) : j = k := by
  simp only [candFrom] at h
  have hd := congrArg String.data h
  simp only [String.data_append] at hd
  have h1 := List.append_cancel_right hd
  have h2 := List.append_cancel_left h1
  have h3 : Nat.repr (j + 1) = Nat.repr (k + 1) := String.ext h2
  have h4 := nat_repr_inj h3
  omega

theorem candFrom_injective (base ext : String) :
    Function.Injective (candFrom base ext) := by
  intro a b h
  cases a with
  | zero =>
    cases b with
    | zero => rfl
    | succ k => exact absurd h (candFrom_zero_ne_succ base ext k)
  | succ j =>
    cases b with
    | zero => exact absurd h.symm (candFrom_zero_ne_succ base ext j)
    | succ k => rw [candFrom_succ_inj base ext j k h]

theorem exists_candFrom_not_mem (existing : List String) (base ext : String) :
    ∃ i, i ≤ existing.length ∧ candFrom base ext i ∉ existing := by
  by_contra hc
  push_neg at hc
  have hsub : ((List.range (existing.length + 1)).map (candFrom base ext)) ⊆ existing := by
    intro x hx
    simp only [List.mem_map, List.mem_range] at hx
    obtain ⟨i, hi, rfl⟩ := hx
    exact hc i (by omega)
  have hnd : ((List.range (existing.length + 1)).map (candFrom base ext)).Nodup :=
    (List.nodup_range _).map (candFrom_injective base ext)
  have hle := (hnd.subperm hsub).length_le
  simp at hle

theorem collisionLoop_first_fit (existing : List String) (base ext : String) :
    ∀ (fuel k : Nat),
      (∃ j, k ≤ j ∧ j < k + fuel ∧ candFrom base ext j ∉ existing) →
      ∃ i, k ≤ i ∧
        collisionLoop existing base ext (candFrom base ext k) (k + 1) fuel =
          candFrom base ext i ∧
        candFrom base ext i ∉ existing ∧
        (∀ j, k ≤ j → j < i → candFrom base ext j ∈ existing) := by
  intro fuel
  induction fuel with
  | zero =>
    intro k ⟨j, hj1, hj2, _⟩
    omega
  | succ fuel ih =>
    intro k ⟨j, hj1, hj2, hj3⟩
    simp only [collisionLoop]
    by_cases hk : candFrom base ext k ∈ existing
    · rw [if_pos hk]
      have hjk : j ≠ k := fun hh => hj3 (hh ▸ hk)
      obtain ⟨i, hi1, hi2, hi3, hi4⟩ := ih (k + 1) ⟨j, by omega, by omega, hj3⟩
      refine ⟨i, by omega, hi2, hi3, ?_⟩
      intro j2 hj21 hj22
      by_cases hj2k : j2 = k
      · exact hj2k ▸ hk
      · exact hi4 j2 (by omega) hj22
    · rw [if_neg hk]
      exact ⟨k, Nat.le_refl k, rfl, hk, fun j2 h1 h2 => absurd h1 (by omega)⟩

/-- C8.  The destination path chosen by the collision loop is the first
candidate — `downloads/name`, then `downloads/base_1ext`,
`downloads/base_2ext`, ... — that does not already exist; as a function of
the name and the directory contents it is deterministic, and with
`downloads/f.txt` present, `f.txt` resolves to `downloads/f_1.txt`. -/
theorem resolvePath_first_fit (existing : List String) (name : String) :
    (∃ i, resolvePath existing name = cand name i ∧ cand name i ∉ existing ∧
      ∀ j < i, cand name j ∈ existing) ∧
    resolvePath ["downloads/f.txt"] "f.txt" = "downloads/f_1.txt" := by
  constructor
  · obtain ⟨i0, hi0a, hi0b⟩ :=
      exists_candFrom_not_mem existing (splitext name).1 (splitext name).2
    obtain ⟨i, hi1, hi2, hi3, hi4⟩ :=
      collisionLoop_first_fit existing (splitext name).1 (splitext name).2
        (existing.length + 1) 0 ⟨i0, Nat.zero_le _, by omega, hi0b⟩
    refine ⟨i, ?_, ?_, ?_⟩
    · show collisionLoop existing (splitext name).1 (splitext name).2
        ("downloads/" ++ name) 1 (existing.length + 1) = cand name i
      rw [cand_eq_candFrom]
      have hp : "downloads/" ++ name = candFrom (splitext name).1 (splitext name).2 0 :=
        cand_eq_candFrom name 0
      rw [hp]
      exact hi2
    · rw [cand_eq_candFrom]; exact hi3
    · intro j hj
      rw [cand_eq_candFrom]
      exact hi4 j (Nat.zero_le _) hj
  · decide
